import Mathlib

/-!
Verification development for the financial-PDF extraction core
(`main.py` of the repository): the locale-ambiguous number normalizer
(`clean_number`), the two plain-text statement dialects (Bancolombia and
Davivienda), the text-fallback selector (`_parse_text_transactions`), the
table classifier / row collector and column-role inference of
`extract_bank_statement` / `_process_table_data`, and the Planilla PILA
extractor (`extract_planilla_pila`).

Modelling conventions:
* Python strings are `String`; most character work is done on `List Char`
  (`String.data`) so proofs can proceed by list induction.
* Python `None` / missing cells are `Option`.
* Python numbers (the `int`/`float` results of `clean_number`) are modelled
  exactly: `Int` for the integer case and `ℚ` for the float case.  The
  string inputs that reach `float(...)` in this code are short decimal
  literals, which binary doubles represent faithfully enough that exact
  rational arithmetic is the intended semantics; `float` parsing is
  modelled for finite decimal literals (optional sign, digits, one optional
  decimal point).  Exotic `float` spellings (exponents, `inf`, `nan`,
  underscores) never occur in this pipeline and are not modelled.
* Regular expressions are modelled by deterministic matchers that agree
  with the anchored patterns of the source on whitespace-separated lines:
  every group of each pattern is delimited by mandatory whitespace or the
  line ends, so a match decomposes the line into tokens, which is what the
  matchers below compute.
* Case folding (`str.lower`) is modelled for ASCII letters.
-/

/-! ### Character and string utilities -/

/-- Python whitespace characters relevant to `str.strip` / `\s`. -/
def isWsCh (c : Char) : Bool :=
  c = ' ' || c = '\t' || c = '\n' || c = '\r' || c = '\x0b' || c = '\x0c'

/-- `str.strip` on a character list. -/
def trimC (cs : List Char) : List Char :=
  ((cs.dropWhile isWsCh).reverse.dropWhile isWsCh).reverse

/-- `str.strip` on a `String`. -/
def trimS (s : String) : String :=
  ⟨trimC s.data⟩

/-- `str.rfind` for a single character: index of the last occurrence,
`-1` when the character does not occur. -/
def rfindC : List Char → Char → Int
  | [], _ => -1
  | x :: xs, c =>
    let r := rfindC xs c
    if 0 ≤ r then r + 1
    else if x = c then 0 else -1

/-- Split a character list on a separator character (Python `str.split(sep)`:
`[[]]` on the empty string). -/
def splitOnC (c : Char) : List Char → List (List Char)
  | [] => [[]]
  | x :: xs =>
    match splitOnC c xs with
    | [] => if x = c then [[], []] else [[x]]
    | h :: t => if x = c then [] :: h :: t else (x :: h) :: t

/-- `full_text.split('\n')`. -/
def splitLines (s : String) : List String :=
  (splitOnC '\n' s.data).map String.mk

/-- Whitespace tokenisation: the maximal non-whitespace runs of a line.
A regex of the anchored form used in this file decomposes its subject
into such tokens. -/
def wsTokens (cs : List Char) : List (List Char) :=
  (cs.splitOnP isWsCh).filter (fun t => decide (t ≠ []))

/-- ASCII lowering of one character (`str.lower`, ASCII fragment). -/
def lowerChar (c : Char) : Char :=
  if 'A' ≤ c ∧ c ≤ 'Z' then Char.ofNat (c.toNat + 32) else c

/-- ASCII lowering of a character list. -/
def lowerC (cs : List Char) : List Char :=
  cs.map lowerChar

/-- Python `needle in haystack` on strings (contiguous substring). -/
def containsSub (needle hay : List Char) : Bool :=
  hay.tails.any (fun t => needle.isPrefixOf t)

/-- Python `str(x)` for an optional string (`str(None) = "None"`). -/
def pyStr : Option String → String
  | none => "None"
  | some s => s

/-- Numeric value of a digit list, most significant digit first. -/
def digitsVal (cs : List Char) : Nat :=
  cs.foldl (fun a c => 10 * a + (c.toNat - 48)) 0

/-- The character of a decimal digit. -/
def digitChar (d : Nat) : Char :=
  Char.ofNat (48 + d % 10)

/-- Decimal digit list of a natural number, most significant first. -/
def natToDigits (n : Nat) : List Char :=
  if _h : n < 10 then [digitChar n]
  else natToDigits (n / 10) ++ [digitChar (n % 10)]
decreasing_by exact Nat.div_lt_self (by omega) (by omega)

/-- Decimal rendering of an integer (`str(int)`). -/
def intToChars (n : Int) : List Char :=
  (if n < 0 then ['-'] else []) ++ natToDigits n.natAbs

/-! ### The number normalizer: `clean_number` -/

/-- Result type of `clean_number`: Python `None`, `int`, `float`, or the
raw input string passed through on parse failure. -/
inductive NumericValue
  | absent
  | intVal (n : Int)
  | decVal (q : ℚ)
  | raw (s : String)
deriving DecidableEq, Repr

/-- The numeric value carried by a `NumericValue`, when it is a number
(`isinstance(v, (int, float))`). -/
def numQ : NumericValue → Option ℚ
  | .intVal n => some (n : ℚ)
  | .decVal q => some q
  | _ => none

/-- `abs` on a numeric `NumericValue` (Python `abs` keeps `int` as `int`
and `float` as `float`). -/
def numAbs : NumericValue → NumericValue
  | .intVal n => .intVal |n|
  | .decVal q => .decVal |q|
  | v => v

/-- The rational `n / d` built directly in lowest terms.  Equal to
`(n : ℚ) / d` (see `mkRatReduced_eq_divInt` below); building the reduced
`Rat.mk'` form from `Nat` arithmetic keeps every computation of this file
reducible by the kernel. -/
def mkRatReduced (n : Int) (d : Nat) : ℚ :=
  if hd : d = 0 then 0
  else
    let a := n.natAbs
    let g := a.gcd d
    have hg : 0 < g := Nat.gcd_pos_of_pos_right _ (Nat.pos_of_ne_zero hd)
    Rat.mk' (if n < 0 then -((a / g : Nat) : Int) else ((a / g : Nat) : Int)) (d / g)
      (by
        have : 0 < d / g :=
          Nat.div_pos (Nat.le_of_dvd (Nat.pos_of_ne_zero hd) (Nat.gcd_dvd_right a d)) hg
        omega)
      (by
        have h := Nat.coprime_div_gcd_div_gcd (m := a) (n := d) hg
        rcases lt_or_le n 0 with h1 | h1
        · simpa [if_pos h1] using h
        · simpa [if_neg (not_lt.mpr h1)] using h)

/-- Python `float(...)` on an unsigned finite decimal literal:
digits with at most one decimal point and at least one digit.  The value
of `ip.fp` is `(ip * 10 ^ |fp| + fp) / 10 ^ |fp|`. -/
def parseUFloat (cs : List Char) : Option ℚ :=
  if cs.contains '.' then
    let ip := cs.takeWhile (fun c => decide (c ≠ '.'))
    let fp := (cs.dropWhile (fun c => decide (c ≠ '.'))).tail
    if fp.contains '.' then none
    else if ip.all Char.isDigit ∧ fp.all Char.isDigit ∧ (ip ≠ [] ∨ fp ≠ []) then
      some (mkRatReduced ((digitsVal ip * 10 ^ fp.length + digitsVal fp : Nat) : Int)
        (10 ^ fp.length))
    else none
  else if cs ≠ [] ∧ cs.all Char.isDigit then
    some (mkRatReduced ((digitsVal cs : Nat) : Int) 1)
  else none

/-- Python `float(...)` on a finite decimal literal with optional sign. -/
def parseFloat (cs : List Char) : Option ℚ :=
  match cs with
  | [] => none
  | c :: rest =>
    if c = '-' then (parseUFloat rest).map (fun q => -q)
    else if c = '+' then parseUFloat rest
    else parseUFloat (c :: rest)

/-- `clean_number` preprocessing: drop `$`, then strip. -/
def cleanStr (v : String) : List Char :=
  trimC (v.data.filter (fun c => decide (c ≠ '$')))

/-- The separator-disambiguation step of `clean_number` ("last separator
wins"), acting on the cleaned character list. -/
def sepTransform (s : List Char) : List Char :=
  let lastDot := rfindC s '.'
  let lastComma := rfindC s ','
  if lastComma < lastDot then
    if 1 < s.count '.' then
      (s.filter (fun c => decide (c ≠ '.'))).filter (fun c => decide (c ≠ ','))
    else s.filter (fun c => decide (c ≠ ','))
  else if lastDot < lastComma then
    let after := s.drop (lastComma.toNat + 1)
    if after.length = 2 ∧ after.all Char.isDigit then
      (s.filter (fun c => decide (c ≠ '.'))).map (fun c => if c = ',' then '.' else c)
    else s.filter (fun c => decide (c ≠ ','))
  else s

/-- `clean_number` (src/main.py, lines 11-59): strip `$` and whitespace,
empty or `"-"` is `None`; disambiguate separators; parse; an integral
value becomes `int`, a fractional one stays `float`; a parse failure
returns the original value unchanged. -/
def clean_number (value : Option String) : NumericValue :=
  match value with
  | none => .absent
  | some v =>
    let s := cleanStr v
    if s = [] ∨ s = ['-'] then .absent
    else
      match parseFloat (sepTransform s) with
      | some q => if q.den = 1 then .intVal q.num else .decVal q
      | none => .raw v

/-! ### Line grammars: the Bancolombia and Davivienda dialects

Each anchored pattern of the source delimits every capture group by
mandatory whitespace (or the line ends), so a match decomposes the
stripped line into whitespace tokens: the matchers below parse that token
decomposition.  `(.+?)` descriptions capture the intermediate tokens. -/

/-- `\d{1,2}/\d{2}` as a whole token (the Bancolombia FECHA group). -/
def fechaPat (cs : List Char) : Bool :=
  match cs with
  | [a, '/', b, c] => a.isDigit && b.isDigit && c.isDigit
  | [a, b, '/', c, d] => a.isDigit && b.isDigit && c.isDigit && d.isDigit
  | _ => false

/-- `-?[\d,]*\.[\d]+` as a whole token (Bancolombia VALOR / SALDO). -/
def numPatB (cs : List Char) : Bool :=
  let cs2 := if cs.headD ' ' = '-' then cs.tail else cs
  let pre := cs2.takeWhile (fun c => decide (c ≠ '.'))
  let rest := cs2.dropWhile (fun c => decide (c ≠ '.'))
  pre.all (fun c => c.isDigit || c = ',') &&
    match rest with
    | '.' :: post => decide (post ≠ []) && post.all Char.isDigit
    | _ => false

/-- `[\d,]+\.[\d]{2}` as a whole token (Davivienda DÉBITO / CRÉDITO). -/
def amtPat (cs : List Char) : Bool :=
  match cs.reverse with
  | b :: a :: '.' :: preRev =>
    a.isDigit && b.isDigit && decide (preRev ≠ []) &&
      preRev.all (fun c => c.isDigit || c = ',')
  | _ => false

/-- A token of exactly two digits (`\d{2}` delimited by whitespace). -/
def twoDigits (cs : List Char) : Bool :=
  match cs with
  | [a, b] => a.isDigit && b.isDigit
  | _ => false

/-- Join tokens back with single spaces (the description capture of a
lazy `(.+?)` group spanning several tokens, post `strip`). -/
def joinToks (ts : List (List Char)) : String :=
  ⟨(ts.intersperse [' ']).flatten⟩

/-- Capture groups of `_BANCOLOMBIA_PATTERN`. -/
structure BancoGroups where
  fecha : String
  desc : String
  valor : String
  saldo : String
deriving DecidableEq, Repr

/-- Capture groups of `_DAVIVIENDA_PATTERN`. -/
structure DaviGroups where
  dia : String
  mes : String
  desc : String
  deb : String
  cre : String
deriving DecidableEq, Repr

/-- `_BANCOLOMBIA_PATTERN.match` on a stripped line: FECHA, then at least
one description token, then VALOR and SALDO ending the line. -/
def banco_match (s : String) : Option BancoGroups :=
  match wsTokens s.data with
  | [] => none
  | fecha :: rest =>
    match rest.reverse with
    | saldo :: valor :: descRev =>
      if descRev ≠ [] ∧ fechaPat fecha ∧ numPatB valor ∧ numPatB saldo then
        some ⟨⟨fecha⟩, joinToks descRev.reverse, ⟨valor⟩, ⟨saldo⟩⟩
      else none
    | _ => none

/-- Pop one `\$\s*([\d,]+\.[\d]{2})` group from the end of a reversed
token list: either the last token is `$amount`, or it is `amount`
preceded by a lone `$` token. -/
def popAmount : List (List Char) → Option (List Char × List (List Char))
  | [] => none
  | tok :: rest =>
    if tok.headD ' ' = '$' then
      if amtPat tok.tail then some (tok.tail, rest) else none
    else
      match rest with
      | dollar :: rest2 =>
        if dollar = ['$'] ∧ amtPat tok then some (tok, rest2) else none
      | [] => none

/-- `_DAVIVIENDA_PATTERN.match` on a stripped line: DIA MES OFICINA, then
at least one description token, then `$ DÉBITO $ CRÉDITO` ending the
line. -/
def davi_match (s : String) : Option DaviGroups :=
  match wsTokens s.data with
  | dia :: mes :: ofi :: rest =>
    if twoDigits dia ∧ twoDigits mes ∧ ofi ≠ [] ∧ ofi.all Char.isDigit then
      match popAmount rest.reverse with
      | some (cre, rest2) =>
        match popAmount rest2 with
        | some (deb, descRev) =>
          if descRev ≠ [] then
            some ⟨⟨dia⟩, ⟨mes⟩, joinToks descRev.reverse, ⟨deb⟩, ⟨cre⟩⟩
          else none
        | none => none
      | none => none
    else none
  | _ => none

/-- One alternative of the `_DAVI_SKIP` pattern: literal characters
(stored lowercase), `.` wildcards, and `\d` digit classes. -/
inductive PTok
  | lit (c : Char)
  | anyc
  | dig
deriving DecidableEq, Repr

/-- Literal pattern tokens of a (lowercase) string. -/
def lits (s : String) : List PTok :=
  s.data.map PTok.lit

/-- Prefix match of one alternative against a line, case-insensitively
(`re.match` with `re.IGNORECASE`). -/
def pmatch : List PTok → List Char → Bool
  | [], _ => true
  | _ :: _, [] => false
  | .lit c :: ps, x :: xs => lowerChar x = c && pmatch ps xs
  | .anyc :: ps, _ :: xs => pmatch ps xs
  | .dig :: ps, x :: xs => x.isDigit && pmatch ps xs

/-- The alternatives of `_DAVI_SKIP` (src/main.py, lines 156-162). -/
def daviSkipPats : List (List PTok) :=
  [ lits ("cuenta de ahorros"), lits ("damas"), lits ("banco davivienda"),
    lits ("fecha"),
    lits ("d") ++ [.anyc] ++ lits ("a mes"),
    lits ("oficina"),
    lits ("h.") ++ [.dig],
    lits ("apreciado"), lits ("davivienda a partir"), lits ("este producto"),
    lits ("cualquier diferencia"), lits ("recuerde que"),
    lits ("tel") ++ [.anyc] ++ lits ("fono"),
    lits ("para mayor"), lits ("informe"), lits ("saldo anterior"),
    lits ("m") ++ [.anyc] ++ lits ("s cr") ++ [.anyc] ++ lits ("ditos"),
    lits ("menos d") ++ [.anyc] ++ lits ("bitos"),
    lits ("nuevo saldo"), lits ("saldo promedio") ]

/-- `_DAVI_SKIP.match(line)` as a Boolean. -/
def davi_skip (s : String) : Bool :=
  daviSkipPats.any (fun p => pmatch p s.data)

/-! ### Transaction records and the text-dialect parsers -/

/-- A statement transaction row: `Fecha`, `Descripción`, `Entradas`,
`Salidas`, and (Bancolombia only) `Saldo`. -/
structure TransactionRecord where
  fecha : String
  descripcion : String
  entradas : NumericValue
  salidas : NumericValue
  saldo : Option NumericValue
deriving DecidableEq, Repr

/-- `v if isinstance(v, (int, float)) and v > 0 else None`. -/
def posOrAbsent (v : NumericValue) : NumericValue :=
  match numQ v with
  | some q => if 0 < q then v else .absent
  | none => .absent

/-- `abs(v) if isinstance(v, (int, float)) and v < 0 else None`. -/
def negAbsOrAbsent (v : NumericValue) : NumericValue :=
  match numQ v with
  | some q => if q < 0 then numAbs v else .absent
  | none => .absent

/-- The record built from one Bancolombia match
(src/main.py, lines 172-181). -/
def mkBancoRecord (g : BancoGroups) : TransactionRecord :=
  { fecha := g.fecha
    descripcion := trimS g.desc
    entradas := posOrAbsent (clean_number (some g.valor))
    salidas := negAbsOrAbsent (clean_number (some g.valor))
    saldo := some (clean_number (some g.saldo)) }

/-- `_parse_bancolombia_text` (src/main.py, lines 165-182), as the list
of matched rows (`None` in the source is the empty list here). -/
def parse_bancolombia_text (full_text : String) : List TransactionRecord :=
  (splitLines full_text).filterMap (fun line => (banco_match (trimS line)).map mkBancoRecord)

/-- The record built from one Davivienda match with its (possibly
continuation-extended) description (src/main.py, lines 209-214). -/
def mkDaviRecord (g : DaviGroups) (desc : String) : TransactionRecord :=
  { fecha := g.dia ++ ("/") ++ g.mes
    descripcion := desc
    entradas := posOrAbsent (clean_number (some g.cre))
    salidas := posOrAbsent (clean_number (some g.deb))
    saldo := none }

/-- The body of `_parse_davivienda_text` on an already-split line list:
a matched line yields one record, and the immediately following line is
appended to the description when it is non-empty, not itself a
transaction, and not a known header/footer (src/main.py, lines 185-216). -/
def davi_parse_lines (lines : List String) : List TransactionRecord :=
  (List.range lines.length).filterMap (fun i =>
    match davi_match (trimS (lines.getD i (""))) with
    | none => none
    | some g =>
      let nxt := trimS (lines.getD (i + 1) (""))
      let desc :=
        if i + 1 < lines.length ∧ nxt ≠ "" ∧ davi_match nxt = none ∧ davi_skip nxt = false
        then trimS g.desc ++ (" ") ++ nxt
        else trimS g.desc
      some (mkDaviRecord g desc))

/-- `_parse_davivienda_text` (src/main.py, lines 185-216). -/
def parse_davivienda_text (full_text : String) : List TransactionRecord :=
  davi_parse_lines (splitLines full_text)

/-- `_parse_text_transactions` (src/main.py, lines 219-228): run both
dialects, drop empty results, return the candidate with the most rows
(Python `max` keeps the first of equally long candidates; `None` is
modelled as `none`). -/
def parse_text_transactions (full_text : String) : Option (List TransactionRecord) :=
  let cands := [parse_davivienda_text full_text,
                parse_bancolombia_text full_text].filter (fun l => decide (l ≠ []))
  match cands with
  | [] => none
  | c :: cs => some (cs.foldl (fun best x => if best.length < x.length then x else best) c)

/-! ### Table path: classifier, row collector, column-role inference -/

/-- One extracted table row: cells are strings or `None`. -/
abbrev Row : Type := List (Option String)

/-- One candidate table: a list of rows. -/
abbrev Table : Type := List Row

/-- A page handed over by the PDF collaborator: optional text plus
candidate tables. -/
structure Page where
  text : Option String
  tables : List Table
deriving DecidableEq, Repr

/-- `c` is Python-truthy for a cell: a non-`None`, non-empty string. -/
def cellTruthy : Option String → Bool
  | none => false
  | some s => decide (s ≠ "")

/-- The header candidate of a table:
`str(h).strip() if h else f"Col{i}"` over the first row. -/
def candidateHeaders (table : Table) : List String :=
  (table.headD []).enum.map (fun p =>
    match p.2 with
    | some s => if s ≠ "" then trimS s else ("Col") ++ toString p.1
    | none => ("Col") ++ toString p.1)

/-- The transaction-table keyword set `_TX_HEADER_KEYWORDS`
(src/main.py, line 276). -/
def txHeaderKeywords : List String :=
  ["fecha", "descripci", "movimiento", "concepto", "detalle", "transacci"]

/-- `_is_transaction_table` (src/main.py, lines 279-282): some keyword
occurs in the lowercased, space-joined header cells. -/
def is_transaction_table (headerRow : List String) : Bool :=
  let combined := ((headerRow.map (fun h => lowerC h.data)).intersperse ([' '])).flatten
  txHeaderKeywords.any (fun kw => containsSub kw.data combined)

/-- The per-table step of the row-collection loop of
`extract_bank_statement` (src/main.py, lines 305-332).  State: the
established headers (if any) and the accumulated rows. -/
def stepTable (st : Option (List String) × List Row) (table : Table) :
    Option (List String) × List Row :=
  if table.length < 2 then st
  else if table.foldr (fun r m => max r.length m) 0 < 3 then st
  else
    match st.1 with
    | none =>
      let cand := candidateHeaders table
      if is_transaction_table cand = false then st
      else
        (some cand,
         st.2 ++ table.tail.filter (fun row =>
           row.length = cand.length && row.any cellTruthy))
    | some hs =>
      (st.1,
       st.2 ++ table.filter (fun row =>
         row.length = hs.length &&
         decide (trimS (pyStr (row.headD none)) ≠ trimS (hs.headD (""))) &&
         row.any cellTruthy))

/-- Row collection over the whole document: headers and accumulated rows
after scanning every table of every page in order. -/
def collectTables (doc : List Page) : Option (List String) × List Row :=
  doc.foldl (fun st pg => pg.tables.foldl stepTable st) (none, ([] : List Row))

/-- The page texts kept by `extract_bank_statement` (`if text:`). -/
def collectTexts (doc : List Page) : List String :=
  doc.filterMap (fun pg =>
    match pg.text with
    | some t => if t ≠ "" then some t else none
    | none => none)

/-- A processed table row: the original cells plus the derived
`Entradas` / `Salidas` columns (absent when no amount column at all was
inferred). -/
structure TableRow where
  cells : Row
  entradas : NumericValue
  salidas : NumericValue
deriving DecidableEq, Repr

/-- Debit-indicating header substrings (src/main.py, lines 236-239). -/
def debitKeywords : List String :=
  ["débit", "debito", "cargo", "salida", "egreso", "retiro"]

/-- Credit-indicating header substrings (src/main.py, lines 240-243). -/
def creditKeywords : List String :=
  ["crédit", "credito", "abono", "entrada", "ingreso", "depósito", "deposito"]

/-- Index of the first column whose lowercased name contains one of the
given keywords (`debit_cols[0]` / `credit_cols[0]`). -/
def findColIdx (kws : List String) (headers : List String) : Option Nat :=
  headers.findIdx? (fun h => kws.any (fun kw => containsSub kw.data (lowerC h.data)))

/-- `monetary_pattern.search(str(v))`: a digit immediately followed by a
digit, dot or comma occurs somewhere (`\d[\d.,]+`). -/
def monetarySearch : List Char → Bool
  | a :: b :: t => (a.isDigit && (b.isDigit || b = '.' || b = ',')) || monetarySearch (b :: t)
  | _ => false

/-- How many cells of column `i` look monetary (src/main.py, lines 250-254). -/
def colMonetaryCount (rows : List Row) (i : Nat) : Nat :=
  rows.countP (fun row =>
    match row.getD i none with
    | some s => if s = "" then false else monetarySearch s.data
    | none => false)

/-- The best-scoring amount column, `None` when every count is zero
(src/main.py, lines 250-256: strictly greater count replaces). -/
def bestMonetaryCol (ncols : Nat) (rows : List Row) : Option Nat :=
  ((List.range ncols).foldl (fun acc i =>
    if acc.2 < colMonetaryCount rows i then (some i, colMonetaryCount rows i) else acc)
    ((none : Option Nat), 0)).1

/-- `to_signed` (src/main.py, lines 259-265): sign from a leading `-` or
an enclosing parenthesis, magnitude from the digits/separators only. -/
def to_signed (v : Option String) : NumericValue :=
  match v with
  | none => .absent
  | some s0 =>
    if s0 = "" then .absent
    else
      let s := trimC s0.data
      let isNeg := s.headD ' ' = '-' || s.contains '('
      match clean_number (some ⟨s.filter (fun c => c.isDigit || c = '.' || c = ',')⟩) with
      | .intVal n => .intVal (if isNeg then -n else n)
      | .decVal q => .decVal (if isNeg then -q else q)
      | _ => .absent

/-- `_process_table_data` (src/main.py, lines 231-272): use named
debit/credit columns when both exist, otherwise infer a single signed
amount column by content and split it by sign. -/
def process_table_data (headers : List String) (rows : List Row) : List TableRow :=
  match findColIdx debitKeywords headers, findColIdx creditKeywords headers with
  | some di, some ci =>
    rows.map (fun row =>
      { cells := row
        entradas := clean_number (row.getD ci none)
        salidas := clean_number (row.getD di none) })
  | _, _ =>
    match bestMonetaryCol headers.length rows with
    | some bi =>
      rows.map (fun row =>
        let amt := to_signed (row.getD bi none)
        { cells := row, entradas := posOrAbsent amt, salidas := negAbsOrAbsent amt })
    | none =>
      rows.map (fun row => { cells := row, entradas := .absent, salidas := .absent })

/-- The two possible shapes of a bank-statement extraction result. -/
inductive BankResult
  | table (headers : List String) (rows : List TableRow)
  | text (recs : List TransactionRecord)
deriving DecidableEq, Repr

/-- `extract_bank_statement` (src/main.py, lines 285-339): table result
when at least 5 rows were collected, else the text fallback over the
joined page texts. -/
def extract_bank_statement (doc : List Page) : Option BankResult :=
  let st := collectTables doc
  if st.2 ≠ [] ∧ 5 ≤ st.2.length then
    some (.table (st.1.getD []) (process_table_data (st.1.getD []) st.2))
  else
    (parse_text_transactions (String.intercalate ("\n") (collectTexts doc))).map .text

/-! ### Planilla PILA extractor -/

/-- Field values of a planilla record: Python `None`, a string, an `int`,
or a `float`. -/
inductive CellVal
  | nil
  | str (s : String)
  | ival (n : Int)
  | fval (q : ℚ)
deriving DecidableEq, Repr

/-- `_PLANILLA_COLS_52` (src/main.py, lines 394-403), in source order. -/
def planillaCols52 : List (String × Nat) :=
  [("No", 0), ("Tipo", 1), ("ID", 2), ("Nombre", 4),
   ("Pension_Codigo", 24), ("Pension_Dias", 25), ("Pension_IBC", 26), ("Pension_Aporte", 29),
   ("Salud_EPS", 30), ("Salud_Dias", 31), ("Salud_IBC", 32), ("Salud_Aporte", 33),
   ("CCF_Codigo", 35), ("CCF_Dias", 36), ("CCF_IBC", 37), ("CCF_Aporte", 39),
   ("Riesgo_Codigo", 42), ("Riesgo_Dias", 43), ("Riesgo_IBC", 44),
   ("Riesgo_Tarifa", 45), ("Riesgo_Aporte", 46),
   ("Paraf_Dias", 47), ("Paraf_IBC", 48), ("Paraf_Aporte", 49),
   ("Exonerado", 50), ("Total", 51)]

/-- `_PLANILLA_COLS_43` (src/main.py, lines 406-415), in source order. -/
def planillaCols43 : List (String × Nat) :=
  [("No", 0), ("Tipo", 1), ("ID", 2), ("Nombre", 3),
   ("Pension_Codigo", 21), ("Pension_Dias", 22), ("Pension_IBC", 23), ("Pension_Aporte", 24),
   ("Salud_EPS", 25), ("Salud_Dias", 26), ("Salud_IBC", 27), ("Salud_Aporte", 28),
   ("CCF_Codigo", 29), ("CCF_Dias", 30), ("CCF_IBC", 31), ("CCF_Aporte", 32),
   ("Riesgo_Codigo", 33), ("Riesgo_Dias", 34), ("Riesgo_IBC", 35),
   ("Riesgo_Tarifa", 36), ("Riesgo_Aporte", 37),
   ("Paraf_Dias", 38), ("Paraf_IBC", 39), ("Paraf_Aporte", 40),
   ("Exonerado", 41), ("Total", 42)]

/-- `_PLANILLA_MONEY` (src/main.py, lines 417-421). -/
def planillaMoney : List String :=
  ["Pension_IBC", "Pension_Aporte", "Salud_IBC", "Salud_Aporte",
   "CCF_IBC", "CCF_Aporte", "Riesgo_IBC", "Riesgo_Aporte",
   "Paraf_IBC", "Paraf_Aporte", "Total"]

/-- `_PLANILLA_INT` (src/main.py, line 422). -/
def planillaInt : List String :=
  ["Pension_Dias", "Salud_Dias", "CCF_Dias", "Riesgo_Dias", "Paraf_Dias"]

/-- `val.split('\n')[0]`. -/
def firstLineS (s : String) : String :=
  ⟨(splitOnC '\n' s.data).headD []⟩

/-- `val.replace('\n', ' ')`. -/
def replaceNl (s : String) : String :=
  ⟨s.data.map (fun c => if c = '\n' then ' ' else c)⟩

/-- Python `int(...)` on a string: optional sign and decimal digits. -/
def pyInt (s : String) : Option Int :=
  match s.data with
  | '-' :: ds => if ds ≠ [] ∧ ds.all Char.isDigit then some (-(digitsVal ds : Int)) else none
  | '+' :: ds => if ds ≠ [] ∧ ds.all Char.isDigit then some ((digitsVal ds : Int)) else none
  | ds => if ds ≠ [] ∧ ds.all Char.isDigit then some ((digitsVal ds : Int)) else none

/-- `clean_number` result as a planilla cell value. -/
def numericToCell : NumericValue → CellVal
  | .absent => .nil
  | .intVal n => .ival n
  | .decVal q => .fval q
  | .raw s => .str s

/-- The per-field coercion of `extract_planilla_pila`
(src/main.py, lines 470-494). -/
def coerceField (field : String) (cell : Option String) : CellVal :=
  match cell with
  | none => .nil
  | some raw0 =>
    if raw0 = "" then .nil
    else
      let val := trimS raw0
      if field = "Pension_Codigo" then .str (trimS (firstLineS val))
      else if field = "Riesgo_Tarifa" then
        let v := trimS ⟨val.data.filter (fun c => decide (c ≠ '%'))⟩
        match parseFloat v.data with
        | some q => .fval q
        | none => .str v
      else if planillaMoney.contains field then numericToCell (clean_number (some val))
      else if planillaInt.contains field then
        match pyInt (trimS (firstLineS val)) with
        | some n => .ival n
        | none => .str val
      else .str (replaceNl val)

/-- `str(row[0]).strip().isdigit()` row gate of `extract_planilla_pila`
(src/main.py, lines 462-466): the row is non-empty, its first cell is
truthy, and the stripped first cell is a non-empty digit string. -/
def planillaRowQualifies (row : Row) : Bool :=
  match row.headD none with
  | none => false
  | some s => decide (s ≠ "") && decide ((trimS s).data ≠ []) && (trimS s).data.all Char.isDigit

/-- One planilla record: the field/value pairs in mapping order. -/
abbrev PlanillaRecord : Type := List (String × CellVal)

/-- Build the record of one qualifying row under a column mapping
(src/main.py, lines 469-496). -/
def mkPlanillaRecord (cmap : List (String × Nat)) (row : Row) : PlanillaRecord :=
  cmap.map (fun p => (p.1, coerceField p.1 (row.getD p.2 none)))

/-- Records contributed by one candidate table
(src/main.py, lines 451-496): the column mapping is chosen purely by the
first row's cell count (52 or 43); any other width is skipped. -/
def planillaTableRecords (table : Table) : List PlanillaRecord :=
  if table = [] ∨ table.headD [] = [] then []
  else
    let ncols := (table.headD []).length
    if ncols = 52 then (table.filter planillaRowQualifies).map (mkPlanillaRecord planillaCols52)
    else if ncols = 43 then (table.filter planillaRowQualifies).map (mkPlanillaRecord planillaCols43)
    else []

/-- `_PLANILLA_RENAME` (src/main.py, lines 424-437) as a lookup list. -/
def planillaRename : List (String × String) :=
  [("No", "No."), ("ID", "Identificación"),
   ("Pension_Codigo", "Pensión_Código"), ("Pension_Dias", "Pensión_Días"),
   ("Pension_IBC", "Pensión_IBC"), ("Pension_Aporte", "Pensión_Aporte"),
   ("Salud_EPS", "Salud_EPS"), ("Salud_Dias", "Salud_Días"),
   ("Salud_IBC", "Salud_IBC"), ("Salud_Aporte", "Salud_Aporte"),
   ("CCF_Codigo", "CCF_Código"), ("CCF_Dias", "CCF_Días"),
   ("CCF_IBC", "CCF_IBC"), ("CCF_Aporte", "CCF_Aporte"),
   ("Riesgo_Codigo", "Riesgo_Código"), ("Riesgo_Dias", "Riesgo_Días"),
   ("Riesgo_IBC", "Riesgo_IBC"), ("Riesgo_Tarifa", "Riesgo_Tarifa%"),
   ("Riesgo_Aporte", "Riesgo_Aporte"),
   ("Paraf_Dias", "Paraf_Días"), ("Paraf_IBC", "Paraf_IBC"),
   ("Paraf_Aporte", "Paraf_Aporte"), ("Total", "Total_Aportes")]

/-- Apply the display renaming to one record (`DataFrame.rename`). -/
def renamePlanilla (r : PlanillaRecord) : PlanillaRecord :=
  r.map (fun p =>
    match (planillaRename.filter (fun q => q.1 = p.1)).headD (p.1, p.1) with
    | (_, newName) => (newName, p.2))

/-- `extract_planilla_pila` (src/main.py, lines 440-502): records of
every 52/43-column table of every page, renamed; `None` when no row
qualified anywhere. -/
def extract_planilla_pila (doc : List (List Table)) : Option (List PlanillaRecord) :=
  let rows := ((doc.flatten).map planillaTableRecords).flatten
  if rows = [] then none else some (rows.map renamePlanilla)

/-! ### Decimal re-rendering (for the idempotence property) -/

/-- Left-pad a digit list with zeros to length `k`. -/
def padZeros (k : Nat) (ds : List Char) : List Char :=
  List.replicate (k - ds.length) '0' ++ ds

/-- The least `k` with `d ∣ 10 ^ k` (searched up to `d`, which suffices
for any divisor of a power of ten). -/
def pow10exp (d : Nat) : Nat :=
  (((List.range (d + 1)).find? (fun k => decide (d ∣ 10 ^ k)))).getD d

/-- Decimal string rendering of a non-integral rational whose denominator
divides a power of ten (the `str(float)` form of a `clean_number`
result): optional minus sign, integer digits, a point, fraction digits. -/
def renderDec (q : ℚ) : List Char :=
  let k := pow10exp q.den
  let scaled := q.num.natAbs * (10 ^ k / q.den)
  (if q < 0 then ['-'] else []) ++
    natToDigits (scaled / 10 ^ k) ++ '.' :: padZeros k (natToDigits (scaled % 10 ^ k))

/-! ### Concrete documents used by the claims -/

/-- Seven Bancolombia-dialect lines (Dialect A). -/
def bancoText7 : String :=
  String.intercalate ("\n")
    [ "1/04 PAGO QR UNO 24,300.00 3,888,729.61",
      "2/04 PAGO QR DOS 1,100.00 3,887,629.61",
      "3/04 ABONO INTERESES .86 3,887,630.47",
      "4/04 PAGO QR TRES 2,000.00 3,885,630.47",
      "5/04 TRANSFERENCIA -500.00 3,885,130.47",
      "6/04 PAGO QR CUATRO 700.00 3,884,430.47",
      "7/04 ABONO NOMINA 1,000,000.00 4,884,430.47" ]

/-- A qualifying transaction table with exactly 4 data rows. -/
def qualTable4 : Table :=
  [ [some ("Fecha"), some ("Detalle"), some ("Valor")],
    [some ("1/04"), some ("A"), some ("1.00")],
    [some ("2/04"), some ("B"), some ("2.00")],
    [some ("3/04"), some ("C"), some ("3.00")],
    [some ("4/04"), some ("D"), some ("4.00")] ]

/-- A document with 4 qualifying table rows and 7 Dialect-A text lines. -/
def c3Doc : List Page :=
  [{ text := some bancoText7, tables := [qualTable4] }]

/-- A qualifying transaction table with exactly 1 data row. -/
def qualTable1 : Table :=
  [ [some ("Fecha"), some ("Detalle"), some ("Valor")],
    [some ("1/04"), some ("A"), some ("1.00")] ]

/-- A well-formed 6-row table whose header has no transaction keyword. -/
def decoyTable : Table :=
  [ [some ("Sub"), some ("Tot"), some ("Val")],
    [some ("a1"), some ("b1"), some ("1.00")],
    [some ("a2"), some ("b2"), some ("2.00")],
    [some ("a3"), some ("b3"), some ("3.00")],
    [some ("a4"), some ("b4"), some ("4.00")],
    [some ("a5"), some ("b5"), some ("5.00")] ]

/-- A qualifying table followed by the keyword-less `decoyTable`. -/
def c4Doc : List Page :=
  [{ text := none, tables := [qualTable1, decoyTable] }]

/-- The same document without the decoy. -/
def c4DocFirstOnly : List Page :=
  [{ text := none, tables := [qualTable1] }]

/-- A 52-cell planilla row with the given first cell. -/
def row52 (first : String) : Row :=
  some first :: List.replicate 51 (some ("x"))

/-- A 52-column planilla table: header, one employee row, one totals row. -/
def c8Table52 : Table :=
  [row52 ("No"), row52 ("1"), row52 ("Totales")]

/-- A 50-column table (unrecognized width). -/
def c8Table50 : Table :=
  [some ("No") :: List.replicate 49 (some ("x")),
   some ("1") :: List.replicate 49 (some ("x"))]

/-- A 52-column table whose employee row has first cell `" 1 "`. -/
def c8TableWs : Table :=
  [row52 ("No"), row52 (" 1 ")]
/-- A document with 5 qualifying table rows (4 from `qualTable4`, 1 more
from `qualTable1`). -/
def c3Doc5 : List Page :=
  [{ text := none, tables := [qualTable4, qualTable1] }]

/-! ### Helper lemmas -/

/-- `mkRatReduced` has the value `n /. d`. -/
theorem mkRatReduced_eq_divInt (n : Int) (d : Nat) :
    mkRatReduced n d = Rat.divInt n (d : Int) := by
  unfold mkRatReduced
  by_cases hd : d = 0
  · simp [hd]
  · simp only [dif_neg hd]
    rw [Rat.mk'_eq_divInt]
    obtain ⟨a1, ha⟩ := Nat.gcd_dvd_left n.natAbs d
    obtain ⟨d1, hdd⟩ := Nat.gcd_dvd_right n.natAbs d
    set g := n.natAbs.gcd d with hgdef
    have hg : 0 < g := Nat.gcd_pos_of_pos_right _ (Nat.pos_of_ne_zero hd)
    have hag : n.natAbs / g = a1 := by rw [ha]; exact Nat.mul_div_cancel_left a1 hg
    have hdg : d / g = d1 := by rw [hdd]; exact Nat.mul_div_cancel_left d1 hg
    have hd1 : d1 ≠ 0 := by rintro rfl; omega
    rw [hag, hdg]
    have habs : (n.natAbs : Int) = (g : Int) * (a1 : Int) := by exact_mod_cast congrArg Nat.cast ha
    rcases lt_or_le n 0 with h1 | h1
    · rw [if_pos h1]
      have h2 : (n.natAbs : Int) = -n := Int.ofNat_natAbs_of_nonpos (le_of_lt h1)
      have hn : n = -((g : Int) * a1) := by rw [← habs, h2]; ring
      rw [Rat.divInt_eq_iff (by exact_mod_cast hd1) (by exact_mod_cast hd)]
      rw [hn, hdd]
      push_cast
      ring
    · rw [if_neg (not_lt.mpr h1)]
      have h2 : (n.natAbs : Int) = n := Int.natAbs_of_nonneg h1
      have hn : n = (g : Int) * a1 := by rw [← habs, h2]
      rw [Rat.divInt_eq_iff (by exact_mod_cast hd1) (by exact_mod_cast hd)]
      rw [hn, hdd]
      push_cast
      ring

/-- `mkRatReduced` as a quotient of casts. -/
theorem mkRatReduced_val (n : Int) (d : Nat) :
    mkRatReduced n d = (n : ℚ) / (d : ℚ) := by
  rw [mkRatReduced_eq_divInt, Rat.divInt_eq_div]
  norm_num

/-- The denominator of `mkRatReduced n d` divides `d`. -/
theorem mkRatReduced_den_dvd (n : Int) (d : Nat) :
    (mkRatReduced n d).den ∣ d := by
  unfold mkRatReduced
  by_cases hd : d = 0
  · simp [hd]
  · simp only [dif_neg hd]
    exact Nat.div_dvd_of_dvd (Nat.gcd_dvd_right n.natAbs d)

/-- The sign-classified inflow and outflow parts are never both
non-absent: a number is not both positive and negative. -/
theorem posOrAbsent_negAbsOrAbsent_exclusive (v : NumericValue) :
    posOrAbsent v = .absent ∨ negAbsOrAbsent v = .absent := by
  unfold posOrAbsent negAbsOrAbsent
  match h : numQ v with
  | none => left; rfl
  | some q =>
    by_cases h0 : 0 < q
    · right
      dsimp only
      rw [if_neg (not_lt.mpr (le_of_lt h0))]
    · left
      dsimp only
      rw [if_neg h0]
/-! ### Claim theorems -/

/-- C2: the number normalizer maps `"$ 1.234.567,89"` and
`"1,234,567.89"` to the decimal 1234567.89, `".86"` to the decimal 0.86,
`"1,00"` to the integer 1, `"19.00"` to the integer 19, `"1.225.000"` to
the integer 1225000, and `"212,700"` to the integer 212700. -/
theorem clean_number_normalizes_examples :
    clean_number (some ("$ 1.234.567,89")) = .decVal ((1234567.89 : ℚ))
    ∧ clean_number (some ("1,234,567.89")) = .decVal ((1234567.89 : ℚ))
    ∧ clean_number (some (".86")) = .decVal ((0.86 : ℚ))
    ∧ clean_number (some ("1,00")) = .intVal 1
    ∧ clean_number (some ("19.00")) = .intVal 19
    ∧ clean_number (some ("1.225.000")) = .intVal 1225000
    ∧ clean_number (some ("212,700")) = .intVal 212700 := by
  have e1 : (mkRatReduced 123456789 100) = ((1234567.89 : ℚ)) := by
    rw [mkRatReduced_val]; norm_num
  have e2 : (mkRatReduced 86 100) = ((0.86 : ℚ)) := by
    rw [mkRatReduced_val]; norm_num
  refine ⟨?_, ?_, ?_, by decide, by decide, by decide, by decide⟩
  · rw [show clean_number (some ("$ 1.234.567,89")) = .decVal (mkRatReduced 123456789 100)
      from by decide, e1]
  · rw [show clean_number (some ("1,234,567.89")) = .decVal (mkRatReduced 123456789 100)
      from by decide, e1]
  · rw [show clean_number (some (".86")) = .decVal (mkRatReduced 86 100)
      from by decide, e2]

/-- C7: when the cleaned, separator-disambiguated form of an input fails
to parse as a number, `clean_number` returns the raw input unchanged
(pass-through), not `None`. -/
theorem clean_number_parse_failure_passthrough (v : String)
    (h1 : ¬(cleanStr v = [] ∨ cleanStr v = ['-']))
    (h2 : parseFloat (sepTransform (cleanStr v)) = none) :
    clean_number (some v) = .raw v := by
  unfold clean_number
  dsimp only
  rw [if_neg h1, h2]

/-- Witness for C7 at the unparseable input `"abc"`. -/
theorem clean_number_parse_failure_passthrough_witness :
    clean_number (some ("abc")) = .raw ("abc") :=
  clean_number_parse_failure_passthrough ("abc") (by decide) (by decide)

/-- C10: a transaction amount that normalizes to exactly zero is
classified as neither inflow nor outflow: the Bancolombia record keeps
both `Entradas` and `Salidas` absent when VALOR is zero, and the
Davivienda record keeps `Entradas` absent when CRÉDITO is zero and
`Salidas` absent when DÉBITO is zero. -/
theorem zero_amount_unclassified :
    (∀ g : BancoGroups, clean_number (some g.valor) = .intVal 0 →
      (mkBancoRecord g).entradas = .absent ∧ (mkBancoRecord g).salidas = .absent)
    ∧ (∀ (g : DaviGroups) (desc : String),
        (clean_number (some g.cre) = .intVal 0 → (mkDaviRecord g desc).entradas = .absent)
        ∧ (clean_number (some g.deb) = .intVal 0 → (mkDaviRecord g desc).salidas = .absent)) := by
  constructor
  · intro g h
    constructor
    · show posOrAbsent (clean_number (some g.valor)) = .absent
      rw [h]
      decide
    · show negAbsOrAbsent (clean_number (some g.valor)) = .absent
      rw [h]
      decide
  · intro g desc
    constructor
    · intro h
      show posOrAbsent (clean_number (some g.cre)) = .absent
      rw [h]
      decide
    · intro h
      show posOrAbsent (clean_number (some g.deb)) = .absent
      rw [h]
      decide

/-- Witness for C10: concrete groups with zero amounts. -/
theorem zero_amount_unclassified_witness :
    ((mkBancoRecord ⟨("1/04"), ("PAGO"), ("0.00"), ("1.00")⟩).entradas = .absent
      ∧ (mkBancoRecord ⟨("1/04"), ("PAGO"), ("0.00"), ("1.00")⟩).salidas = .absent)
    ∧ (mkDaviRecord ⟨("01"), ("02"), ("PAGO"), ("1.00"), ("0.00")⟩ ("PAGO")).entradas
        = .absent := by
  constructor
  · exact zero_amount_unclassified.1 ⟨("1/04"), ("PAGO"), ("0.00"), ("1.00")⟩ (by decide)
  · exact (zero_amount_unclassified.2 ⟨("01"), ("02"), ("PAGO"), ("1.00"), ("0.00")⟩
      ("PAGO")).1 (by decide)
/-- C1 (amended): mutual exclusion of `Entradas` and `Salidas` holds for
every record classified from a single signed amount — the Bancolombia
text dialect, and the table path when no named debit/credit column pair
exists (content-inferred amount column).  It does not hold for the
two-column sources (see `inflow_outflow_both_present`): the Davivienda
dialect and the named debit/credit table branch fill the two fields
independently. -/
theorem single_amount_inflow_outflow_exclusive :
    (∀ (t : String), ∀ r ∈ parse_bancolombia_text t,
      r.entradas = .absent ∨ r.salidas = .absent)
    ∧ (∀ (headers : List String) (rows : List Row) (tr : TableRow),
        (findColIdx debitKeywords headers = none ∨ findColIdx creditKeywords headers = none) →
        tr ∈ process_table_data headers rows →
        tr.entradas = .absent ∨ tr.salidas = .absent) := by
  constructor
  · intro t r hr
    rw [parse_bancolombia_text, List.mem_filterMap] at hr
    obtain ⟨line, _, hline⟩ := hr
    rw [Option.map_eq_some'] at hline
    obtain ⟨g, _, rfl⟩ := hline
    exact posOrAbsent_negAbsOrAbsent_exclusive (clean_number (some g.valor))
  · intro headers rows tr hnone htr
    rw [process_table_data] at htr
    split at htr
    · rename_i di ci hd hc
      rcases hnone with h | h
      · rw [h] at hd; exact Option.noConfusion hd
      · rw [h] at hc; exact Option.noConfusion hc
    · split at htr
      · rw [List.mem_map] at htr
        obtain ⟨row, _, rfl⟩ := htr
        exact posOrAbsent_negAbsOrAbsent_exclusive _
      · rw [List.mem_map] at htr
        obtain ⟨row, _, rfl⟩ := htr
        left; rfl

/-- Witness for C1 (amended): a concrete Bancolombia record and a
concrete inferred-column table row are sign-exclusive. -/
theorem single_amount_inflow_outflow_exclusive_witness :
    (∀ r ∈ parse_bancolombia_text ("1/04 PAGO UNO 24,300.00 3,888,729.61"),
      r.entradas = .absent ∨ r.salidas = .absent)
    ∧ (∀ tr ∈ process_table_data [("Fecha"), ("Detalle"), ("Monto")]
        [[some ("1/04"), some ("A"), some ("-5.00")]],
        tr.entradas = .absent ∨ tr.salidas = .absent) := by
  constructor
  · exact single_amount_inflow_outflow_exclusive.1 ("1/04 PAGO UNO 24,300.00 3,888,729.61")
  · exact fun tr htr =>
      single_amount_inflow_outflow_exclusive.2 [("Fecha"), ("Detalle"), ("Monto")]
        [[some ("1/04"), some ("A"), some ("-5.00")]] tr (Or.inl (by decide)) htr

/-- C1 counterexample: a Davivienda line whose débito and crédito are
both strictly positive yields one statement-path record whose inflow and
outflow are both non-absent, refuting the claimed invariant. -/
theorem inflow_outflow_both_present :
    parse_davivienda_text ("01 02 9070 PAGO X $ 5.00 $ 3.00")
      = [{ fecha := ("01/02"), descripcion := ("PAGO X"),
           entradas := .intVal 3, salidas := .intVal 5, saldo := none }]
    ∧ (NumericValue.intVal 3 ≠ .absent ∧ NumericValue.intVal 5 ≠ .absent) := by
  exact ⟨by decide, by decide, by decide⟩
/-- Closed form of `_parse_text_transactions` over the two registered
grammars. -/
theorem parse_text_transactions_eq (t : String) :
    parse_text_transactions t =
      (if parse_davivienda_text t = [] then
         (if parse_bancolombia_text t = [] then none else some (parse_bancolombia_text t))
       else if parse_bancolombia_text t = [] then some (parse_davivienda_text t)
       else some (if (parse_davivienda_text t).length < (parse_bancolombia_text t).length
                  then parse_bancolombia_text t else parse_davivienda_text t)) := by
  unfold parse_text_transactions
  by_cases hd : parse_davivienda_text t = [] <;>
    by_cases hb : parse_bancolombia_text t = [] <;>
    simp [List.filter, hd, hb, List.foldl]

/-- C6: the text fallback runs both registered grammars on the full text
and keeps the result with the most rows; on a tie the first-listed
dialect (Davivienda) wins; it is absent exactly when both grammars yield
zero rows. -/
theorem text_fallback_selects_best (t : String) :
    (parse_text_transactions t = none ↔
      parse_davivienda_text t = [] ∧ parse_bancolombia_text t = [])
    ∧ (parse_davivienda_text t ≠ [] →
        (parse_bancolombia_text t).length ≤ (parse_davivienda_text t).length →
        parse_text_transactions t = some (parse_davivienda_text t))
    ∧ ((parse_davivienda_text t).length < (parse_bancolombia_text t).length →
        parse_text_transactions t = some (parse_bancolombia_text t)) := by
  rw [parse_text_transactions_eq]
  by_cases hd : parse_davivienda_text t = []
  · by_cases hb : parse_bancolombia_text t = []
    · rw [if_pos hd, if_pos hb]
      refine ⟨by simp [hd, hb], fun h => absurd hd h, fun h => ?_⟩
      rw [hd, hb] at h
      simp at h
    · rw [if_pos hd, if_neg hb]
      refine ⟨by simp [hd, hb], fun h => absurd hd h, fun _ => rfl⟩
  · by_cases hb : parse_bancolombia_text t = []
    · rw [if_neg hd, if_pos hb]
      refine ⟨by simp [hd], fun _ _ => rfl, fun h => ?_⟩
      rw [hb] at h
      simp at h
    · rw [if_neg hd, if_neg hb]
      refine ⟨by simp [hd], fun _ hlen => ?_, fun hlen => ?_⟩
      · rw [if_neg (not_lt.mpr hlen)]
      · rw [if_pos hlen]

/-- Witness for C6 at a two-line text on which both dialects match one
line each: the tie goes to the first-listed (Davivienda) result. -/
theorem text_fallback_selects_best_witness :
    parse_davivienda_text
        (("01 02 9070 PAGO X $ 5.00 $ 0.00") ++ ("\n") ++ ("1/04 PAGO Y 10.00 20.00")) ≠ []
    ∧ (parse_bancolombia_text
        (("01 02 9070 PAGO X $ 5.00 $ 0.00") ++ ("\n") ++ ("1/04 PAGO Y 10.00 20.00"))).length = 1
    ∧ parse_text_transactions
        (("01 02 9070 PAGO X $ 5.00 $ 0.00") ++ ("\n") ++ ("1/04 PAGO Y 10.00 20.00"))
      = some (parse_davivienda_text
          (("01 02 9070 PAGO X $ 5.00 $ 0.00") ++ ("\n") ++ ("1/04 PAGO Y 10.00 20.00"))) := by
  refine ⟨by decide, by decide, ?_⟩
  exact (text_fallback_selects_best _).2.1 (by decide) (by decide)
/-- C5: in the Davivienda dialect, a matched transaction line followed by
a non-empty line that is neither a transaction nor a known header/footer
yields exactly one record whose description is the two lines joined by a
single space; a matched line followed by a recognized header/footer
phrase yields the record with the unmodified single-line description. -/
theorem davivienda_continuation (l1 l2 : String) (g : DaviGroups)
    (hm : davi_match (trimS l1) = some g)
    (h2 : davi_match (trimS l2) = none) :
    (trimS l2 ≠ "" → davi_skip (trimS l2) = false →
      davi_parse_lines [l1, l2]
        = [mkDaviRecord g (trimS g.desc ++ (" ") ++ trimS l2)])
    ∧ (davi_skip (trimS l2) = true →
      davi_parse_lines [l1, l2] = [mkDaviRecord g (trimS g.desc)]) := by
  have hrange : List.range 2 = [0, 1] := rfl
  constructor
  · intro hne hskip
    unfold davi_parse_lines
    rw [List.length_cons, List.length_cons, List.length_nil, hrange]
    rw [List.filterMap_cons, List.filterMap_cons, List.filterMap_nil]
    dsimp only [List.getD_cons_zero, List.getD_cons_succ]
    rw [hm, h2]
    simp [hne, hskip]
  · intro hskip
    unfold davi_parse_lines
    rw [List.length_cons, List.length_cons, List.length_nil, hrange]
    rw [List.filterMap_cons, List.filterMap_cons, List.filterMap_nil]
    dsimp only [List.getD_cons_zero, List.getD_cons_succ]
    rw [hm, h2]
    simp [hskip]

/-- Witness for C5: a concrete continuation line is appended; a concrete
footer phrase (`Saldo Anterior …`) is not. -/
theorem davivienda_continuation_witness :
    davi_parse_lines [("01 02 9070 ABONO X $ 0.00 $ 5,534,339.00"), ("CONTINUA LINEA")]
      = [{ fecha := ("01/02"), descripcion := ("ABONO X CONTINUA LINEA"),
           entradas := .intVal 5534339, salidas := .absent, saldo := none }]
    ∧ davi_parse_lines [("01 02 9070 ABONO X $ 0.00 $ 5,534,339.00"), ("Saldo Anterior 99")]
      = [{ fecha := ("01/02"), descripcion := ("ABONO X"),
           entradas := .intVal 5534339, salidas := .absent, saldo := none }] := by
  constructor
  · rw [(davivienda_continuation ("01 02 9070 ABONO X $ 0.00 $ 5,534,339.00")
      ("CONTINUA LINEA") ⟨("01"), ("02"), ("ABONO X"), ("0.00"), ("5,534,339.00")⟩
      (by decide) (by decide)).1 (by decide) (by decide)]
    decide
  · rw [(davivienda_continuation ("01 02 9070 ABONO X $ 0.00 $ 5,534,339.00")
      ("Saldo Anterior 99") ⟨("01"), ("02"), ("ABONO X"), ("0.00"), ("5,534,339.00")⟩
      (by decide) (by decide)).2 (by decide)]
    decide
/-- C4 (amended): while no transaction header has been established, a
candidate table whose header row lacks every transaction keyword
contributes no rows (and does not establish the header); consequently a
document none of whose tables qualifies collects no rows at all.  Once
an earlier table has established the header, later keyword-less tables
of matching width do contribute rows
(see `keywordless_table_contributes_rows`). -/
theorem unclassified_table_contributes_nothing :
    (∀ (st : Option (List String) × List Row) (table : Table),
      st.1 = none → is_transaction_table (candidateHeaders table) = false →
      stepTable st table = st)
    ∧ (∀ doc : List Page,
        (∀ pg ∈ doc, ∀ table ∈ pg.tables,
          is_transaction_table (candidateHeaders table) = false) →
        collectTables doc = (none, [])) := by
  have hstep : ∀ (st : Option (List String) × List Row) (table : Table),
      st.1 = none → is_transaction_table (candidateHeaders table) = false →
      stepTable st table = st := by
    intro st table h1 h2
    unfold stepTable
    by_cases hlen : table.length < 2
    · rw [if_pos hlen]
    · rw [if_neg hlen]
      by_cases hcols : table.foldr (fun r m => max r.length m) 0 < 3
      · rw [if_pos hcols]
      · rw [if_neg hcols, h1]
        dsimp only
        rw [if_pos h2]
  refine ⟨hstep, ?_⟩
  have htables : ∀ (tables : List Table) (st : Option (List String) × List Row),
      st.1 = none →
      (∀ table ∈ tables, is_transaction_table (candidateHeaders table) = false) →
      tables.foldl stepTable st = st := by
    intro tables
    induction tables with
    | nil => intro st _ _; rfl
    | cons t ts ih =>
      intro st h1 h2
      rw [List.foldl_cons, hstep st t h1 (h2 t (List.mem_cons_self t ts))]
      exact ih st h1 (fun table htable => h2 table (List.mem_cons_of_mem t htable))
  intro doc hdoc
  unfold collectTables
  induction doc with
  | nil => rfl
  | cons pg pgs ih =>
    rw [List.foldl_cons,
        htables pg.tables (none, []) rfl (hdoc pg (List.mem_cons_self pg pgs))]
    exact ih (fun p hp table ht => hdoc p (List.mem_cons_of_mem pg hp) table ht)

/-- Witness for C4 (amended): a concrete decoy table leaves a concrete
header-less state untouched, and a document of only decoys collects
nothing. -/
theorem unclassified_table_contributes_nothing_witness :
    stepTable (none, []) decoyTable = (none, [])
    ∧ collectTables [{ text := none, tables := [decoyTable] }] = (none, []) := by
  constructor
  · exact unclassified_table_contributes_nothing.1 (none, []) decoyTable rfl (by decide)
  · exact unclassified_table_contributes_nothing.2 [{ text := none, tables := [decoyTable] }]
      (by
        intro pg hpg table ht
        simp only [List.mem_singleton] at hpg
        subst hpg
        simp only [List.mem_singleton] at ht
        subst ht
        decide)

/-- C4 counterexample: after `qualTable1` establishes the header, the
keyword-less, 6-row `decoyTable` contributes all six of its rows (the
claim asserts it contributes none): the collected row count grows from 1
to 7. -/
theorem keywordless_table_contributes_rows :
    is_transaction_table (candidateHeaders decoyTable) = false
    ∧ 5 ≤ decoyTable.length
    ∧ (collectTables c4DocFirstOnly).2.length = 1
    ∧ (collectTables c4Doc).2.length = 7 := by
  exact ⟨by decide, by decide, by decide, by decide⟩
set_option maxRecDepth 8000 in
/-- C3: the orchestrator returns the table-path result exactly when the
accumulated qualifying row count is at least 5, and the text-fallback
result otherwise; in particular, on a document with exactly 4 qualifying
table rows and 7 Dialect-A text lines the result is the text-path result
with 7 records. -/
theorem orchestrator_threshold :
    (∀ doc : List Page, 5 ≤ (collectTables doc).2.length →
      extract_bank_statement doc
        = some (.table ((collectTables doc).1.getD [])
            (process_table_data ((collectTables doc).1.getD []) (collectTables doc).2)))
    ∧ (∀ doc : List Page, (collectTables doc).2.length < 5 →
        extract_bank_statement doc
          = (parse_text_transactions
              (String.intercalate ("\n") (collectTexts doc))).map .text)
    ∧ (collectTables c3Doc).2.length = 4
    ∧ extract_bank_statement c3Doc = some (.text (parse_bancolombia_text bancoText7))
    ∧ (parse_bancolombia_text bancoText7).length = 7 := by
  refine ⟨?_, ?_, by decide, by decide, by decide⟩
  · intro doc h
    unfold extract_bank_statement
    rw [if_pos ⟨by rintro hnil; rw [hnil] at h; simp at h, h⟩]
  · intro doc h
    unfold extract_bank_statement
    rw [if_neg (by rintro ⟨-, hge⟩; omega)]

set_option maxRecDepth 8000 in
/-- Witness for C3's universally quantified clauses: `c3Doc5` (5
qualifying rows) takes the table path, and `c3Doc` (4 rows) takes the
text path. -/
theorem orchestrator_threshold_witness :
    extract_bank_statement c3Doc5
      = some (.table ((collectTables c3Doc5).1.getD [])
          (process_table_data ((collectTables c3Doc5).1.getD []) (collectTables c3Doc5).2))
    ∧ extract_bank_statement c3Doc
      = (parse_text_transactions
          (String.intercalate ("\n") (collectTexts c3Doc))).map .text := by
  constructor
  · exact orchestrator_threshold.1 c3Doc5 (by decide)
  · exact orchestrator_threshold.2.1 c3Doc (by decide)
/-- C8 (amended): the planilla extractor chooses its column mapping
purely by the observed column count and skips every other width; a row
is emitted exactly when its first cell is truthy and its
whitespace-stripped content is a non-empty digit string (stripping
happens before the digit test, see
`planilla_whitespace_digit_cell_emitted`); in particular the 52-column
`c8Table52` yields exactly one record (first cell `"1"`; the header row
and the `"Totales"` row are excluded) and the 50-column `c8Table50` is
skipped entirely. -/
theorem planilla_row_selection :
    (∀ table : Table, (table.headD []).length ≠ 52 → (table.headD []).length ≠ 43 →
      planillaTableRecords table = [])
    ∧ (∀ table : Table, (table.headD []).length = 52 →
        (planillaTableRecords table).length = (table.filter planillaRowQualifies).length)
    ∧ (∀ row : Row, planillaRowQualifies row = true ↔
        ∃ s, row.headD none = some s ∧ s ≠ "" ∧ (trimS s).data ≠ []
          ∧ (trimS s).data.all Char.isDigit = true)
    ∧ (planillaTableRecords c8Table52).length = 1
    ∧ planillaTableRecords c8Table50 = []
    ∧ extract_planilla_pila [[c8Table50]] = none := by
  refine ⟨?_, ?_, ?_, by decide, by decide, by decide⟩
  · intro table h52 h43
    unfold planillaTableRecords
    by_cases hnil : table = [] ∨ table.headD [] = []
    · rw [if_pos hnil]
    · rw [if_neg hnil]
      dsimp only
      rw [if_neg h52, if_neg h43]
  · intro table h52
    unfold planillaTableRecords
    have hnil : ¬(table = [] ∨ table.headD [] = []) := by
      rintro (h | h) <;> rw [h] at h52 <;> simp at h52
    rw [if_neg hnil]
    dsimp only
    rw [if_pos h52, List.length_map]
  · intro row
    unfold planillaRowQualifies
    match hrow : row.headD none with
    | none => simp
    | some s =>
      simp only [Bool.and_eq_true, decide_eq_true_eq]
      constructor
      · rintro ⟨⟨hne, htrim⟩, hdig⟩
        exact ⟨s, rfl, hne, htrim, hdig⟩
      · rintro ⟨s2, hs2, hne, htrim, hdig⟩
        rw [Option.some_inj] at hs2
        subst hs2
        exact ⟨⟨hne, htrim⟩, hdig⟩

/-- Witness for C8's universally quantified clauses at concrete tables
and rows. -/
theorem planilla_row_selection_witness :
    planillaTableRecords c8Table50 = []
    ∧ (planillaTableRecords c8Table52).length = (c8Table52.filter planillaRowQualifies).length
    ∧ planillaRowQualifies (row52 ("1")) = true := by
  refine ⟨?_, ?_, ?_⟩
  · exact planilla_row_selection.1 c8Table50 (by decide) (by decide)
  · exact planilla_row_selection.2.1 c8Table52 (by decide)
  · exact (planilla_row_selection.2.2.1 (row52 ("1"))).mpr
      ⟨("1"), by decide, by decide, by decide, by decide⟩

/-- C8 counterexample: the row gate strips surrounding whitespace before
the digit test, so the first cell `" 1 "` — which is not composed
entirely of decimal digits — still produces an employee record, refuting
the claimed "if and only if". -/
theorem planilla_whitespace_digit_cell_emitted :
    (planillaTableRecords c8TableWs).length = 1
    ∧ ((c8TableWs.getD 1 []).headD none) = some (" 1 ")
    ∧ (" 1 ").data.all Char.isDigit = false := by
  exact ⟨by decide, by decide, by decide⟩
/-! ### Lemmas for the idempotence of the normalizer -/

theorem isDigit_ne_dot {c : Char} (h : c.isDigit = true) : c ≠ '.' := by
  rintro rfl; exact absurd h (by decide)

theorem isDigit_ne_comma {c : Char} (h : c.isDigit = true) : c ≠ ',' := by
  rintro rfl; exact absurd h (by decide)

theorem isDigit_ne_dollar {c : Char} (h : c.isDigit = true) : c ≠ '$' := by
  rintro rfl; exact absurd h (by decide)

theorem isDigit_ne_minus {c : Char} (h : c.isDigit = true) : c ≠ '-' := by
  rintro rfl; exact absurd h (by decide)

theorem isDigit_ne_plus {c : Char} (h : c.isDigit = true) : c ≠ '+' := by
  rintro rfl; exact absurd h (by decide)

theorem isDigit_not_ws {c : Char} (h : c.isDigit = true) : isWsCh c = false := by
  revert h
  unfold Char.isDigit isWsCh
  intro h
  simp only [Bool.or_eq_false_iff]
  refine ⟨⟨⟨⟨⟨?_, ?_⟩, ?_⟩, ?_⟩, ?_⟩, ?_⟩ <;>
    (simp only [decide_eq_false_iff_not]; rintro rfl; exact absurd h (by decide))

theorem digitChar_isDigit (d : Nat) : (digitChar d).isDigit = true := by
  have h : d % 10 < 10 := Nat.mod_lt d (by omega)
  unfold digitChar
  interval_cases h2 : d % 10 <;> decide

theorem digitChar_toNat (d : Nat) : (digitChar d).toNat = 48 + d % 10 := by
  have h : d % 10 < 10 := Nat.mod_lt d (by omega)
  unfold digitChar
  interval_cases h2 : d % 10 <;> decide

theorem natToDigits_all_digit (n : Nat) : ∀ c ∈ natToDigits n, c.isDigit = true := by
  induction n using Nat.strong_induction_on with
  | _ n ih =>
    intro c hc
    unfold natToDigits at hc
    by_cases h : n < 10
    · rw [dif_pos h] at hc
      rw [List.mem_singleton] at hc
      subst hc
      exact digitChar_isDigit n
    · rw [dif_neg h] at hc
      rw [List.mem_append] at hc
      rcases hc with hc | hc
      · exact ih (n / 10) (Nat.div_lt_self (by omega) (by omega)) c hc
      · rw [List.mem_singleton] at hc
        subst hc
        exact digitChar_isDigit (n % 10)

theorem natToDigits_ne_nil (n : Nat) : natToDigits n ≠ [] := by
  unfold natToDigits
  by_cases h : n < 10
  · rw [dif_pos h]; simp
  · rw [dif_neg h]; simp

theorem digitsVal_append_singleton (xs : List Char) (c : Char) :
    digitsVal (xs ++ [c]) = 10 * digitsVal xs + (c.toNat - 48) := by
  unfold digitsVal
  rw [List.foldl_append]
  rfl

theorem digitsVal_natToDigits (n : Nat) : digitsVal (natToDigits n) = n := by
  induction n using Nat.strong_induction_on with
  | _ n ih =>
    unfold natToDigits
    by_cases h : n < 10
    · rw [dif_pos h]
      show digitsVal ([] ++ [digitChar n]) = n
      rw [digitsVal_append_singleton, digitChar_toNat]
      unfold digitsVal
      simp only [List.foldl_nil]
      omega
    · rw [dif_neg h]
      rw [digitsVal_append_singleton, ih (n / 10) (Nat.div_lt_self (by omega) (by omega)),
        digitChar_toNat]
      omega

theorem natToDigits_length_le (k n : Nat) (h : n < 10 ^ (k + 1)) :
    (natToDigits n).length ≤ k + 1 := by
  induction k generalizing n with
  | zero =>
    unfold natToDigits
    rw [dif_pos (by omega)]
    rfl
  | succ k ih =>
    unfold natToDigits
    by_cases h10 : n < 10
    · rw [dif_pos h10]; simp
    · rw [dif_neg h10]
      rw [List.length_append]
      have hdiv : n / 10 < 10 ^ (k + 1) := by
        rw [Nat.div_lt_iff_lt_mul (by omega)]
        calc n < 10 ^ (k + 1 + 1) := h
        _ = 10 ^ (k + 1) * 10 := by ring
      have := ih (n / 10) hdiv
      simp only [List.length_singleton]
      omega

theorem digitsVal_replicate_zero (m : Nat) (ds : List Char) :
    digitsVal (List.replicate m '0' ++ ds) = digitsVal ds := by
  induction m with
  | zero => rfl
  | succ m ih =>
    rw [List.replicate_succ, List.cons_append]
    show digitsVal (List.replicate m '0' ++ ds) = digitsVal ds
    exact ih

theorem padZeros_all_digit (k : Nat) (ds : List Char)
    (h : ∀ c ∈ ds, c.isDigit = true) : ∀ c ∈ padZeros k ds, c.isDigit = true := by
  intro c hc
  unfold padZeros at hc
  rw [List.mem_append] at hc
  rcases hc with hc | hc
  · rw [List.eq_of_mem_replicate hc]
    decide
  · exact h c hc

theorem padZeros_length (k : Nat) (ds : List Char) (h : ds.length ≤ k) :
    (padZeros k ds).length = k := by
  unfold padZeros
  rw [List.length_append, List.length_replicate]
  omega

theorem digitsVal_padZeros (k : Nat) (ds : List Char) :
    digitsVal (padZeros k ds) = digitsVal ds :=
  digitsVal_replicate_zero _ _
theorem dropWhile_eq_self_of_all {α : Type} {p : α → Bool} {cs : List α}
    (h : ∀ c ∈ cs, p c = false) : cs.dropWhile p = cs := by
  cases cs with
  | nil => rfl
  | cons x xs =>
    rw [List.dropWhile_cons, h x (List.mem_cons_self x xs)]
    simp

theorem trimC_eq_self {cs : List Char} (h : ∀ c ∈ cs, isWsCh c = false) :
    trimC cs = cs := by
  unfold trimC
  rw [dropWhile_eq_self_of_all h,
      dropWhile_eq_self_of_all (fun c hc => h c (List.mem_reverse.mp hc)),
      List.reverse_reverse]

theorem filter_eq_self_of_all {α : Type} {p : α → Bool} {cs : List α}
    (h : ∀ c ∈ cs, p c = true) : cs.filter p = cs :=
  List.filter_eq_self.mpr h

theorem rfindC_eq_neg_one {cs : List Char} {c : Char} (h : c ∉ cs) :
    rfindC cs c = -1 := by
  induction cs with
  | nil => rfl
  | cons x xs ih =>
    unfold rfindC
    rw [ih (fun hmem => h (List.mem_cons_of_mem x hmem))]
    rw [if_neg (by omega), if_neg (by rintro rfl; exact h (List.mem_cons_self x xs))]

theorem rfindC_nonneg {cs : List Char} {c : Char} (h : c ∈ cs) :
    0 ≤ rfindC cs c := by
  induction cs with
  | nil => cases h
  | cons x xs ih =>
    unfold rfindC
    by_cases hx : 0 ≤ rfindC xs c
    · rw [if_pos hx]; omega
    · rw [if_neg hx]
      rcases List.mem_cons.mp h with rfl | hmem
      · rw [if_pos rfl]
      · exact absurd (ih hmem) hx

theorem count_eq_one_of_split {pre post : List Char} {c : Char}
    (hpre : c ∉ pre) (hpost : c ∉ post) :
    (pre ++ c :: post).count c = 1 := by
  rw [List.count_append, List.count_cons_self,
      List.count_eq_zero.mpr hpre, List.count_eq_zero.mpr hpost]

theorem takeWhile_append_cons {p : Char → Bool} (a : List Char) (x : Char) (b : List Char)
    (ha : ∀ c ∈ a, p c = true) (hx : p x = false) :
    (a ++ x :: b).takeWhile p = a ∧ (a ++ x :: b).dropWhile p = x :: b := by
  induction a with
  | nil =>
    constructor
    · rw [List.nil_append, List.takeWhile_cons, hx]
      rfl
    · rw [List.nil_append, List.dropWhile_cons, hx]
      simp
  | cons y ys ih =>
    have hy : p y = true := ha y (List.mem_cons_self y ys)
    have hys : ∀ c ∈ ys, p c = true := fun c hc => ha c (List.mem_cons_of_mem y hc)
    constructor
    · rw [List.cons_append, List.takeWhile_cons, hy]
      simp only [if_true]
      rw [(ih hys).1]
    · rw [List.cons_append, List.dropWhile_cons, hy]
      simp only [if_true]
      rw [(ih hys).2]

theorem sepTransform_of_no_sep {cs : List Char}
    (hdot : '.' ∉ cs) (hcomma : ',' ∉ cs) : sepTransform cs = cs := by
  unfold sepTransform
  rw [rfindC_eq_neg_one hdot, rfindC_eq_neg_one hcomma]
  rw [if_neg (by omega), if_neg (by omega)]

theorem sepTransform_of_single_dot {pre post : List Char}
    (hdotpre : '.' ∉ pre) (hdotpost : '.' ∉ post)
    (hcomma : ',' ∉ pre ++ '.' :: post) :
    sepTransform (pre ++ '.' :: post) = pre ++ '.' :: post := by
  unfold sepTransform
  have hdotmem : '.' ∈ pre ++ '.' :: post :=
    List.mem_append_right pre (List.mem_cons_self _ _)
  rw [rfindC_eq_neg_one hcomma]
  rw [if_pos (by have := rfindC_nonneg hdotmem; omega)]
  rw [count_eq_one_of_split hdotpre hdotpost]
  rw [if_neg (by omega)]
  exact filter_eq_self_of_all (by
    intro c hc
    simp only [decide_eq_true_eq]
    rintro rfl
    exact hcomma hc)
theorem contains_eq_false_of_not_mem {cs : List Char} {c : Char} (h : c ∉ cs) :
    cs.contains c = false := by
  simpa using h

theorem contains_eq_true_of_mem {cs : List Char} {c : Char} (h : c ∈ cs) :
    cs.contains c = true := by
  simpa using h

/-- `parseUFloat` on a bare digit string. -/
theorem parseUFloat_digits {ds : List Char} (h1 : ds ≠ [])
    (h2 : ∀ c ∈ ds, c.isDigit = true) :
    parseUFloat ds = some (mkRatReduced ((digitsVal ds : Nat) : Int) 1) := by
  unfold parseUFloat
  rw [contains_eq_false_of_not_mem (fun hmem => isDigit_ne_dot (h2 _ hmem) rfl)]
  rw [if_neg (by simp), if_pos ⟨h1, List.all_eq_true.mpr h2⟩]

/-- `parseUFloat` on digits, a dot, and digits. -/
theorem parseUFloat_split {ip fp : List Char}
    (hip : ∀ c ∈ ip, c.isDigit = true) (hfp : ∀ c ∈ fp, c.isDigit = true)
    (hne : ip ≠ [] ∨ fp ≠ []) :
    parseUFloat (ip ++ '.' :: fp)
      = some (mkRatReduced ((digitsVal ip * 10 ^ fp.length + digitsVal fp : Nat) : Int)
          (10 ^ fp.length)) := by
  have hdotip : '.' ∉ ip := fun hmem => isDigit_ne_dot (hip _ hmem) rfl
  have hdotfp : '.' ∉ fp := fun hmem => isDigit_ne_dot (hfp _ hmem) rfl
  have hsplit := takeWhile_append_cons (p := fun c => decide (c ≠ '.')) ip '.' fp
    (fun c hc => by simpa using isDigit_ne_dot (hip c hc)) (by simp)
  unfold parseUFloat
  rw [contains_eq_true_of_mem (List.mem_append_right ip (List.mem_cons_self _ _))]
  rw [if_pos rfl]
  rw [hsplit.1, hsplit.2]
  simp only [List.tail_cons]
  rw [if_neg (by rw [contains_eq_false_of_not_mem hdotfp]; simp)]
  rw [if_pos ⟨List.all_eq_true.mpr hip, List.all_eq_true.mpr hfp, hne⟩]

/-- `parseFloat` on a non-empty list, unfolded. -/
theorem parseFloat_cons (c : Char) (rest : List Char) :
    parseFloat (c :: rest)
      = if c = '-' then (parseUFloat rest).map (fun q => -q)
        else if c = '+' then parseUFloat rest
        else parseUFloat (c :: rest) := rfl

/-- Every `parseFloat` result has a denominator dividing a power of ten. -/
theorem parseFloat_den_dvd {cs : List Char} {q : ℚ}
    (h : parseFloat cs = some q) : ∃ L, q.den ∣ 10 ^ L := by
  have hU : ∀ (ds : List Char) (q0 : ℚ), parseUFloat ds = some q0 → ∃ L, q0.den ∣ 10 ^ L := by
    intro ds q0 h0
    unfold parseUFloat at h0
    by_cases hdot : ds.contains '.'
    · rw [if_pos hdot] at h0
      by_cases hfp : ((ds.dropWhile (fun c => decide (c ≠ '.'))).tail).contains '.'
      · rw [if_pos hfp] at h0
        exact absurd h0 (by simp)
      · rw [if_neg hfp] at h0
        by_cases hok : (ds.takeWhile (fun c => decide (c ≠ '.'))).all Char.isDigit
            ∧ ((ds.dropWhile (fun c => decide (c ≠ '.'))).tail).all Char.isDigit
            ∧ (ds.takeWhile (fun c => decide (c ≠ '.')) ≠ []
                ∨ (ds.dropWhile (fun c => decide (c ≠ '.'))).tail ≠ [])
        · rw [if_pos hok, Option.some_inj] at h0
          exact ⟨((ds.dropWhile (fun c => decide (c ≠ '.'))).tail).length,
            h0 ▸ mkRatReduced_den_dvd _ _⟩
        · rw [if_neg hok] at h0
          exact absurd h0 (by simp)
    · rw [if_neg hdot] at h0
      by_cases hok : ds ≠ [] ∧ ds.all Char.isDigit
      · rw [if_pos hok, Option.some_inj] at h0
        refine ⟨0, ?_⟩
        rw [pow_zero]
        exact h0 ▸ mkRatReduced_den_dvd _ _
      · rw [if_neg hok] at h0
        exact absurd h0 (by simp)
  match cs with
  | [] => exact absurd h (by rw [parseFloat] at h; exact Option.noConfusion h)
  | c :: rest =>
    rw [parseFloat_cons] at h
    by_cases hminus : c = '-'
    · rw [if_pos hminus] at h
      rw [Option.map_eq_some'] at h
      obtain ⟨q0, hq0, rfl⟩ := h
      rw [Rat.neg_den]
      exact hU rest q0 hq0
    · rw [if_neg hminus] at h
      by_cases hplus : c = '+'
      · rw [if_pos hplus] at h
        exact hU rest q h
      · rw [if_neg hplus] at h
        exact hU (c :: rest) q h

/-- A divisor of a power of ten divides `10 ^ d` for its own value `d`. -/
theorem dvd_ten_pow_self {d L : Nat} (h : d ∣ 10 ^ L) : d ∣ 10 ^ d := by
  have h25 : d ∣ 2 ^ L * 5 ^ L := by
    rw [← Nat.mul_pow]
    norm_num at h ⊢
    exact h
  obtain ⟨a, b, ha, hb, hab⟩ := Nat.dvd_mul.mp h25
  obtain ⟨x, hxL, rfl⟩ := (Nat.dvd_prime_pow Nat.prime_two).mp ha
  obtain ⟨y, hyL, rfl⟩ := (Nat.dvd_prime_pow Nat.prime_five).mp hb
  have hdpos : 0 < d := by
    rcases Nat.eq_zero_or_pos d with rfl | h0
    · exfalso
      have := Nat.eq_zero_of_zero_dvd h
      exact absurd this (by positivity)
    · exact h0
  have hxle : x ≤ d := by
    have h2x : 2 ^ x ≤ d := Nat.le_of_dvd hdpos (hab ▸ Dvd.intro _ rfl)
    have := Nat.lt_two_pow x
    omega
  have hyle : y ≤ d := by
    have h5y : 5 ^ y ≤ d := Nat.le_of_dvd hdpos (hab ▸ Dvd.intro _ (mul_comm _ _))
    have h25y : 2 ^ y ≤ 5 ^ y := Nat.pow_le_pow_left (by omega) y
    have := Nat.lt_two_pow y
    omega
  have hgoal : 2 ^ x * 5 ^ y ∣ 10 ^ d := by
    calc 2 ^ x * 5 ^ y ∣ 2 ^ d * 5 ^ d :=
          Nat.mul_dvd_mul (Nat.pow_dvd_pow 2 hxle) (Nat.pow_dvd_pow 5 hyle)
    _ = 10 ^ d := by rw [← Nat.mul_pow]
  exact hab ▸ hgoal

/-- When `d` divides some power of ten, it divides `10 ^ pow10exp d`. -/
theorem pow10exp_dvd {d : Nat} (h : ∃ L, d ∣ 10 ^ L) : d ∣ 10 ^ pow10exp d := by
  obtain ⟨L, hL⟩ := h
  have hd : d ∣ 10 ^ d := dvd_ten_pow_self hL
  have hsome : ((List.range (d + 1)).find? (fun k => decide (d ∣ 10 ^ k))).isSome := by
    rw [List.find?_isSome]
    exact ⟨d, List.mem_range.mpr (by omega), by simpa using hd⟩
  unfold pow10exp
  match hfind : (List.range (d + 1)).find? (fun k => decide (d ∣ 10 ^ k)) with
  | none => rw [hfind] at hsome; simp at hsome
  | some k =>
    have := List.find?_some hfind
    simpa using this
/-- The value of `mkRatReduced m 1` is `m`. -/
theorem mkRatReduced_one (m : Int) : mkRatReduced m 1 = (m : ℚ) := by
  rw [mkRatReduced_val, Nat.cast_one, div_one]

/-- Normalizing the decimal rendering of an integer result reproduces it. -/
theorem clean_number_intToChars (n : Int) :
    clean_number (some ⟨intToChars n⟩) = .intVal n := by
  have hdig := natToDigits_all_digit n.natAbs
  have hnil := natToDigits_ne_nil n.natAbs
  have hchar : ∀ c ∈ intToChars n, c = '-' ∨ c.isDigit = true := by
    intro c hc
    unfold intToChars at hc
    rw [List.mem_append] at hc
    rcases hc with hc | hc
    · left
      rcases Decidable.em (n < 0) with h | h
      · rw [if_pos h] at hc
        exact List.mem_singleton.mp hc
      · rw [if_neg h] at hc
        cases hc
    · right
      exact hdig c hc
  have hclean : cleanStr ⟨intToChars n⟩ = intToChars n := by
    unfold cleanStr
    show trimC ((intToChars n).filter _) = _
    rw [filter_eq_self_of_all (by
      intro c hc
      simp only [decide_eq_true_eq]
      rcases hchar c hc with rfl | hd
      · decide
      · exact isDigit_ne_dollar hd)]
    exact trimC_eq_self (by
      intro c hc
      rcases hchar c hc with rfl | hd
      · decide
      · exact isDigit_not_ws hd)
  have hnotempty : intToChars n ≠ [] := by
    unfold intToChars
    rcases Decidable.em (n < 0) with h | h
    · rw [if_pos h]; simp
    · rw [if_neg h]; simpa using hnil
  have hnotdash : intToChars n ≠ ['-'] := by
    unfold intToChars
    rcases Decidable.em (n < 0) with h | h
    · rw [if_pos h]
      intro hcontra
      rw [List.singleton_append, List.cons_eq_cons] at hcontra
      exact hnil hcontra.2
    · rw [if_neg h, List.nil_append]
      intro hcontra
      exact isDigit_ne_minus (hdig '-' (hcontra ▸ List.mem_singleton_self '-')) rfl
  have hsep : sepTransform (intToChars n) = intToChars n := by
    refine sepTransform_of_no_sep ?_ ?_ <;>
      · intro hmem
        rcases hchar _ hmem with h | h
        · exact absurd h (by decide)
        · exact absurd h (by decide)
  have hparse : parseFloat (intToChars n) = some ((n : ℚ)) := by
    rcases Decidable.em (n < 0) with h | h
    · have hform : intToChars n = '-' :: natToDigits n.natAbs := by
        unfold intToChars
        rw [if_pos h, List.singleton_append]
      rw [hform, parseFloat_cons, if_pos rfl,
          parseUFloat_digits hnil hdig, digitsVal_natToDigits]
      rw [Option.map_some', Option.some_inj, mkRatReduced_one]
      have habs : ((n.natAbs : Int)) = -n := Int.ofNat_natAbs_of_nonpos (le_of_lt h)
      rw [habs]
      push_cast
      ring
    · have hform : intToChars n = natToDigits n.natAbs := by
        unfold intToChars
        rw [if_neg h, List.nil_append]
      rw [hform]
      cases hds : natToDigits n.natAbs with
      | nil => exact absurd hds hnil
      | cons c rest =>
        have hc : c.isDigit = true := hdig c (hds ▸ List.mem_cons_self c rest)
        rw [parseFloat_cons, if_neg (isDigit_ne_minus hc), if_neg (isDigit_ne_plus hc)]
        rw [← hds, parseUFloat_digits hnil hdig, digitsVal_natToDigits,
            Option.some_inj, mkRatReduced_one]
        have habs : ((n.natAbs : Int)) = n := Int.natAbs_of_nonneg (not_lt.mp h)
        rw [habs]
  unfold clean_number
  dsimp only
  rw [hclean, if_neg (not_or.mpr ⟨hnotempty, hnotdash⟩), hsep, hparse]
  dsimp only
  rw [if_pos (by rw [Rat.den_intCast]), Rat.num_intCast]
/-- Parsing back the digits of `a * (10^k/d)` split at `k` fraction
places recovers the value `a / d`, for `d` dividing `10 ^ k`. -/
theorem parseUFloat_render (a d k : Nat) (hd : 0 < d) (hk : d ∣ 10 ^ k)
    (hkpos : 1 ≤ k) :
    ∃ q0 : ℚ,
      parseUFloat (natToDigits (a * (10 ^ k / d) / 10 ^ k)
          ++ '.' :: padZeros k (natToDigits (a * (10 ^ k / d) % 10 ^ k)))
        = some q0
      ∧ q0 = (a : ℚ) / (d : ℚ) := by
  have hpow : 0 < 10 ^ k := by positivity
  set scaled := a * (10 ^ k / d) with hsc
  have hlen : (padZeros k (natToDigits (scaled % 10 ^ k))).length = k := by
    apply padZeros_length
    have hlt : scaled % 10 ^ k < 10 ^ k := Nat.mod_lt _ hpow
    obtain ⟨k0, rfl⟩ := Nat.exists_eq_succ_of_ne_zero (by omega : k ≠ 0)
    exact natToDigits_length_le k0 _ hlt
  refine ⟨_, parseUFloat_split (natToDigits_all_digit _)
    (padZeros_all_digit _ _ (natToDigits_all_digit _))
    (Or.inl (natToDigits_ne_nil _)), ?_⟩
  rw [hlen, digitsVal_natToDigits, digitsVal_padZeros, digitsVal_natToDigits]
  have hsum : scaled / 10 ^ k * 10 ^ k + scaled % 10 ^ k = scaled := by
    rw [Nat.mul_comm]
    exact Nat.div_add_mod scaled (10 ^ k)
  rw [hsum, mkRatReduced_val]
  rw [div_eq_div_iff (by positivity) (by positivity)]
  have hnat : scaled * d = a * 10 ^ k := by
    rw [hsc, mul_assoc, Nat.div_mul_cancel hk]
  exact_mod_cast hnat

/-- Normalizing the decimal rendering of a non-integral result
reproduces it. -/
theorem clean_number_renderDec (q : ℚ) (hden : q.den ≠ 1)
    (hdvd : ∃ L, q.den ∣ 10 ^ L) :
    clean_number (some ⟨renderDec q⟩) = .decVal q := by
  have hk : q.den ∣ 10 ^ pow10exp q.den := pow10exp_dvd hdvd
  have hdpos : 0 < q.den := q.den_pos
  have hkpos : 1 ≤ pow10exp q.den := by
    rcases Nat.eq_zero_or_pos (pow10exp q.den) with h0 | h1
    · exfalso
      rw [h0, pow_zero, Nat.dvd_one] at hk
      exact hden hk
    · exact h1
  set k := pow10exp q.den with hkdef
  set scaled := q.num.natAbs * (10 ^ k / q.den) with hscdef
  set ipcs := natToDigits (scaled / 10 ^ k) with hipdef
  set fpcs := padZeros k (natToDigits (scaled % 10 ^ k)) with hfpdef
  have hrender : renderDec q = (if q < 0 then ['-'] else []) ++ ipcs ++ '.' :: fpcs := by
    rw [hipdef, hfpdef, hscdef, hkdef]
    rfl
  obtain ⟨q0, hq0parse, hq0val⟩ := parseUFloat_render q.num.natAbs q.den k hdpos hk hkpos
  rw [← hipdef, ← hfpdef] at hq0parse
  have habs : q0 = |q| := by
    have hdq : |((q.den : ℚ))| = ((q.den : ℚ)) := abs_of_pos (by exact_mod_cast hdpos)
    have h1 : |q| = |(q.num : ℚ)| / ((q.den : ℚ)) := by
      conv_lhs => rw [← Rat.num_div_den q]
      rw [abs_div, hdq]
    rw [hq0val, h1]
    congr 1
    simp [Int.cast_natAbs]
  have hq_ne : q ≠ 0 := by
    rintro rfl
    exact hden rfl
  have hchar : ∀ c ∈ renderDec q, c = '-' ∨ c = '.' ∨ c.isDigit = true := by
    intro c hc
    rw [hrender, List.mem_append, List.mem_append] at hc
    rcases hc with (hc | hc) | hc
    · left
      rcases Decidable.em (q < 0) with h | h
      · rw [if_pos h] at hc
        exact List.mem_singleton.mp hc
      · rw [if_neg h] at hc
        cases hc
    · right; right
      rw [hipdef] at hc
      exact natToDigits_all_digit _ c hc
    · rcases List.mem_cons.mp hc with rfl | hc2
      · right; left; rfl
      · right; right
        rw [hfpdef] at hc2
        exact padZeros_all_digit _ _ (natToDigits_all_digit _) c hc2
  have hdotmem : '.' ∈ renderDec q := by
    rw [hrender]
    exact List.mem_append_right _ (List.mem_cons_self _ _)
  have hclean : cleanStr ⟨renderDec q⟩ = renderDec q := by
    unfold cleanStr
    show trimC ((renderDec q).filter _) = _
    rw [filter_eq_self_of_all (by
      intro c hc
      simp only [decide_eq_true_eq]
      rcases hchar c hc with rfl | rfl | hd
      · decide
      · decide
      · exact isDigit_ne_dollar hd)]
    exact trimC_eq_self (by
      intro c hc
      rcases hchar c hc with rfl | rfl | hd
      · decide
      · decide
      · exact isDigit_not_ws hd)
  have hne : renderDec q ≠ [] := by
    intro hcontra
    rw [hcontra] at hdotmem
    cases hdotmem
  have hnedash : renderDec q ≠ ['-'] := by
    intro hcontra
    rw [hcontra] at hdotmem
    exact absurd (List.mem_singleton.mp hdotmem) (by decide)
  have hcommanot : ',' ∉ renderDec q := by
    intro hmem
    rcases hchar ',' hmem with h | h | h
    · exact absurd h (by decide)
    · exact absurd h (by decide)
    · exact absurd h (by decide)
  have hsep : sepTransform (renderDec q) = renderDec q := by
    rw [hrender]
    refine sepTransform_of_single_dot ?_ ?_ ?_
    · intro hmem
      rw [List.mem_append] at hmem
      rcases hmem with hmem | hmem
      · rcases Decidable.em (q < 0) with h | h
        · rw [if_pos h] at hmem
          exact absurd (List.mem_singleton.mp hmem) (by decide)
        · rw [if_neg h] at hmem
          cases hmem
      · rw [hipdef] at hmem
        exact isDigit_ne_dot (natToDigits_all_digit _ '.' hmem) rfl
    · intro hmem
      rw [hfpdef] at hmem
      exact isDigit_ne_dot (padZeros_all_digit _ _ (natToDigits_all_digit _) '.' hmem) rfl
    · rw [← hrender]
      exact hcommanot
  have hparse : parseFloat (renderDec q) = some q := by
    rcases Decidable.em (q < 0) with h | h
    · have hform : renderDec q = '-' :: (ipcs ++ '.' :: fpcs) := by
        rw [hrender, if_pos h, List.singleton_append, List.cons_append]
      rw [hform, parseFloat_cons, if_pos rfl, hq0parse, Option.map_some', Option.some_inj,
          habs, abs_of_neg h, neg_neg]
    · have hform : renderDec q = ipcs ++ '.' :: fpcs := by
        rw [hrender, if_neg h, List.nil_append]
      have hqpos : 0 < q := lt_of_le_of_ne (not_lt.mp h) (Ne.symm hq_ne)
      obtain ⟨c, rest, hip⟩ := List.exists_cons_of_ne_nil
        (show ipcs ≠ [] from by rw [hipdef]; exact natToDigits_ne_nil _)
      have hc : c.isDigit = true := by
        have hall := natToDigits_all_digit (scaled / 10 ^ k) c
        rw [← hipdef] at hall
        exact hall (hip ▸ List.mem_cons_self c rest)
      rw [hform, hip, List.cons_append, parseFloat_cons,
          if_neg (isDigit_ne_minus hc), if_neg (isDigit_ne_plus hc),
          ← List.cons_append, ← hip, hq0parse, Option.some_inj, habs, abs_of_pos hqpos]
  unfold clean_number
  dsimp only
  rw [hclean, if_neg (not_or.mpr ⟨hne, hnedash⟩), hsep, hparse]
  dsimp only
  rw [if_neg hden]
/-- A `decVal` result of `clean_number` has a non-integral value whose
denominator divides a power of ten. -/
theorem clean_number_decVal_inv (v : String) (q : ℚ)
    (h : clean_number (some v) = .decVal q) :
    q.den ≠ 1 ∧ ∃ L, q.den ∣ 10 ^ L := by
  unfold clean_number at h
  dsimp only at h
  by_cases hempty : cleanStr v = [] ∨ cleanStr v = ['-']
  · rw [if_pos hempty] at h
    exact absurd h (by simp)
  · rw [if_neg hempty] at h
    match hp : parseFloat (sepTransform (cleanStr v)) with
    | none =>
      rw [hp] at h
      exact absurd h (by simp)
    | some q0 =>
      rw [hp] at h
      dsimp only at h
      by_cases hden : q0.den = 1
      · rw [if_pos hden] at h
        exact absurd h (by simp)
      · rw [if_neg hden] at h
        have hq : q0 = q := by
          injection h
        exact ⟨hq ▸ hden, hq ▸ parseFloat_den_dvd hp⟩

/-- C9: the normalizer is idempotent up to re-stringification: whenever
it produces an integer, normalizing that integer's decimal rendering
reproduces it; whenever it produces a non-integral decimal, normalizing
that value's decimal rendering reproduces it. -/
theorem clean_number_idempotent (v : String) :
    (∀ n : Int, clean_number (some v) = .intVal n →
      clean_number (some ⟨intToChars n⟩) = .intVal n)
    ∧ ∀ q : ℚ, clean_number (some v) = .decVal q →
      clean_number (some ⟨renderDec q⟩) = .decVal q := by
  constructor
  · intro n _
    exact clean_number_intToChars n
  · intro q h
    obtain ⟨hden, hdvd⟩ := clean_number_decVal_inv v q h
    exact clean_number_renderDec q hden hdvd

/-- Witness for C9 at `"1,00"` (integer result) and `".86"` (decimal
result). -/
theorem clean_number_idempotent_witness :
    clean_number (some ("1,00")) = .intVal 1
    ∧ clean_number (some ⟨intToChars 1⟩) = .intVal 1
    ∧ clean_number (some (".86")) = .decVal (mkRatReduced 86 100)
    ∧ clean_number (some ⟨renderDec (mkRatReduced 86 100)⟩)
        = .decVal (mkRatReduced 86 100) := by
  refine ⟨by decide, ?_, by decide, ?_⟩
  · exact (clean_number_idempotent ("1,00")).1 1 (by decide)
  · exact (clean_number_idempotent (".86")).2 (mkRatReduced 86 100) (by decide)
